import Mathlib

/-!
Verification development for the pyglottolog languoid core
(`pyglottolog/languoids.py`): a shallow embedding of the `Languoid`
entity, the identifier validator, the tree-walking constructors
(`from_dir` / `from_ini`), the flat-format parser (`from_lff`) and the
group-label computation (`lff_group`), together with theorems settling
the specification claims C1..C10.

Modelling conventions:
* Python strings are Lean `String` / `List Char`.
* Filesystem paths are `List String` (directory components, root-first);
  the filesystem itself is a partial map from a directory path to its
  ordered entry listing (`FS`).
* Fallible Python code (exceptions: failed `assert`, `ValueError`,
  `AttributeError`, unpacking errors) is modelled with `Option` /
  `Except String`.
* The recursive tree walk is given explicit fuel so that every
  definition is structurally recursive and kernel-reducible.
-/

/-- The three languoid levels, mirroring `class Level(Enum)`. -/
inductive Level where
  | family
  | language
  | dialect
deriving DecidableEq, Repr, Inhabited

/-- `Level(value)` on a string: `some` of the member whose value matches,
`none` models the `ValueError` raised for any other string. -/
def Level.ofString (s : String) : Option Level :=
  if s = "family" then some Level.family
  else if s = "language" then some Level.language
  else if s = "dialect" then some Level.dialect
  else none

/-- The `.value` string of a level member. -/
def Level.toStr : Level → String
  | Level.family => "family"
  | Level.language => "language"
  | Level.dialect => "dialect"

/-- Character class `[a-z0-9]` of the identifier regex. -/
def isLowerAlnum (c : Char) : Bool :=
  (('a' ≤ c) && (c ≤ 'z')) || (('0' ≤ c) && (c ≤ '9'))

/-- Character class `[0-9]` of the identifier regex. -/
def isDigitCh (c : Char) : Bool :=
  ('0' ≤ c) && (c ≤ '9')

/-- Character class `[A-Za-z0-9\-]` of the identifier regex. -/
def isSuffixCh (c : Char) : Bool :=
  (('A' ≤ c) && (c ≤ 'Z')) || (('a' ≤ c) && (c ≤ 'z')) ||
    (('0' ≤ c) && (c ≤ '9')) || decide (c = '-')

/-- First alternative of `ID_REGEX`: `[a-z0-9]{4}[0-9]{4}` (taken against
the whole anchored input): exactly 8 characters, the first 4 in
`[a-z0-9]`, the last 4 in `[0-9]`. -/
def glottoAlt (cs : List Char) : Bool :=
  decide (cs.length = 8) && (cs.take 4).all isLowerAlnum &&
    (cs.drop 4).all isDigitCh

/-- What may follow the literal `NOCODE` in the second alternative:
`(_[A-Za-z0-9\-]+)?` followed by the anchor, i.e. nothing, or `_` and a
non-empty run of suffix characters. -/
def nocodeTail (cs : List Char) : Bool :=
  match cs with
  | [] => true
  | c :: suf => decide (c = '_') && (!suf.isEmpty) && suf.all isSuffixCh

/-- Second alternative of `ID_REGEX`: the literal `NOCODE`, then
`nocodeTail`. -/
def nocodeAlt (cs : List Char) : Bool :=
  decide (cs.take 6 = ['N', 'O', 'C', 'O', 'D', 'E']) && nocodeTail (cs.drop 6)

/-- Python's `$` anchor (no `re.MULTILINE`) matches at the end of the
string or just before a single newline that ends the string; since no
alternative of the pattern can contain `'\n'`, `pattern$` on `s` is
equivalent to matching the unanchored pattern against `s` with one final
newline removed. -/
def stripFinalNewline (cs : List Char) : List Char :=
  if cs.getLast? = some '\n' then cs.dropLast else cs

/-- `Languoid.id_pattern.match(s)` viewed as a Boolean: the compiled
regex `ID_REGEX + '$'` = `([a-z0-9]{4}[0-9]{4}|NOCODE(_[A-Za-z0-9\-]+)?)$`
matched from the start of `s`. -/
def idPatternMatch (s : String) : Bool :=
  glottoAlt (stripFinalNewline s.data) || nocodeAlt (stripFinalNewline s.data)

/-- Modelled from the spec: "exactly 4 lowercase-alphanumeric characters
followed by exactly 4 digits" (spec section 4.1), written independently
of the regex translation. -/
def specGlotto (s : String) : Bool :=
  decide (s.length = 8) && (s.data.take 4).all isLowerAlnum &&
    (s.data.drop 4).all isDigitCh

/-- Modelled from the spec: "the literal prefix NOCODE optionally
followed by `_` and an arbitrary (non-empty) alphanumeric/hyphen
suffix" (spec section 4.1). -/
def specNocode (s : String) : Bool :=
  decide (s = "NOCODE") ||
    (decide (s.data.take 7 = ['N', 'O', 'C', 'O', 'D', 'E', '_']) &&
      decide (8 ≤ s.length) && (s.data.drop 7).all isSuffixCh)

/-- The identifier shape exactly as the spec words it. -/
def specIdForm (s : String) : Bool :=
  specGlotto s || specNocode s

/-- The descriptor document (`INI` with interpolation disabled), reduced
to what the core reads: an ordered association of
(section, key, value). `cfgGet` is `cfg.get(section, key, fallback=None)`
and `cfgSet` is `cfg.set(section, key, value)` (later settings shadow
earlier ones). -/
abbrev Cfg := List (String × String × String)

def cfgGet (c : Cfg) (sec key : String) : Option String :=
  (c.find? (fun e => decide (e.1 = sec) && decide (e.2.1 = key))).map
    (fun e => e.2.2)

def cfgSet (c : Cfg) (sec key v : String) : Cfg :=
  (sec, key, v) :: c

/-- A raw lineage entry as it flows into `Languoid.__init__`:
`(name, id, level)` where each part may be absent (`None`) and the level
is carried as its string value (`Level(x)` accepts exactly the members'
value strings). -/
abbrev RawEntry := Option String × Option String × Option String

/-- A converted lineage entry `(name, id, Level(level))` as stored on
`self.lineage`. -/
abbrev LinEntry := Option String × String × Level

/-- One conjunct of the `__init__` assertion,
`self.id_pattern.match(id) and Level(level)`: an absent id or level is a
fatal `TypeError`/`ValueError`, a non-matching id or unknown level
string a fatal `AssertionError`/`ValueError`. -/
def entryOK : RawEntry → Bool
  | (_, some i, some lv) => idPatternMatch i && (Level.ofString lv).isSome
  | _ => false

/-- Conversion of one raw entry to `(name, id, Level(level))`. -/
def convEntry : RawEntry → Option LinEntry
  | (n, some i, some lv) => (Level.ofString lv).map (fun l => (n, i, l))
  | _ => none

/-- The list comprehension
`[(name, id, Level(level)) for name, id, level in lineage]`. -/
def convLineage : List RawEntry → Option (List LinEntry)
  | [] => some []
  | e :: rest =>
    match convEntry e, convLineage rest with
    | some y, some ys => some (y :: ys)
    | _, _ => none

/-- The module constant `TREE = languoids_path('tree')`: the path of the
languoid tree root inside the data repository. Its concrete components
are irrelevant to every claim; none of them matches the identifier
pattern. -/
def TREE : List String := ["languoids", "tree"]

/-- The in-memory `Languoid` object: its descriptor document, its
converted lineage, and its directory. -/
structure Languoid where
  cfg : Cfg
  lineage : List LinEntry
  dir : List String
deriving DecidableEq, Repr

/-- `Languoid.__init__(cfg, lineage=None, directory=None)`: asserts
every lineage entry, converts the lineage, and derives
`self.dir = directory or TREE.joinpath(*[id for name, id, _ in self.lineage])`.
`none` models the exception on a failed assertion/conversion. -/
def Languoid.init (cfg : Cfg) (lineage : List RawEntry)
    (directory : Option (List String)) : Option Languoid :=
  if lineage.all entryOK then
    (convLineage lineage).map (fun lin =>
      { cfg := cfg
        lineage := lin
        dir :=
          match directory with
          | some d => d
          | none => TREE ++ lin.map (fun e => e.2.1) })
  else none

/-- `self.name`: `core.name` of the descriptor. -/
def Languoid.name (l : Languoid) : Option String :=
  cfgGet l.cfg "core" "name"

/-- `self.id`: `core.glottocode` of the descriptor. -/
def Languoid.id (l : Languoid) : Option String :=
  cfgGet l.cfg "core" "glottocode"

/-- `self.iso`: `core.iso639-3` of the descriptor. -/
def Languoid.iso (l : Languoid) : Option String :=
  cfgGet l.cfg "core" "iso639-3"

/-- `self.level` = `self._get('level', Level)`, kept as the raw value
string: `.ok none` when the key is absent, `.ok (some "")` for the empty
string (returned unconverted because `''` is falsy), `.ok (some s)` for
a valid member value `s`, and `.error` for the `ValueError` raised by
`Level(s)` on any other non-empty string. -/
def Languoid.levelRaw (l : Languoid) : Except String (Option String) :=
  match cfgGet l.cfg "core" "level" with
  | none => Except.ok none
  | some s =>
    if s = "" then Except.ok (some "")
    else if (Level.ofString s).isSome then Except.ok (some s)
    else Except.error "ValueError: invalid level"

/-- Python `'%s' % x` for an optional string: `None` renders as
`"None"`. -/
def fmtName : Option String → String
  | some s => s
  | none => "None"

/-- `'%s [%s]' % (name, id)` for one lineage entry. -/
def fmtL (e : LinEntry) : String :=
  fmtName e.1 ++ " [" ++ e.2.1 ++ "]"

/-- `', '.join(parts)`. -/
def joinComma : List String → String
  | [] => ""
  | [s] => s
  | s :: rest => s ++ ", " ++ joinComma rest

/-- `Languoid.lff_group`: for a dialect keep the maximal suffix of the
lineage free of family-level entries
(`reversed(takewhile(lambda x: x[2] != Level.family, reversed(lineage)))`),
else the full lineage; an empty lineage yields the isolate marker and an
empty joined label the `ERROR` fallback.  Reading `self.level` may raise
(`Level` conversion), hence the `Except`. -/
def Languoid.lff_group (l : Languoid) : Except String String :=
  match l.levelRaw with
  | Except.error e => Except.error e
  | Except.ok lv =>
    let lin :=
      if lv = some "dialect" then
        (l.lineage.reverse.takeWhile
          (fun e => !decide (e.2.2 = Level.family))).reverse
      else l.lineage
    if l.lineage = [] then Except.ok (fmtName l.name ++ " [-isolate-]")
    else
      Except.ok
        (if joinComma (lin.map fmtL) = "" then "ERROR [-unclassified-]"
         else joinComma (lin.map fmtL))

/-- Modelled from the spec's wording for C5: scanning the lineage root
to leaf, the contiguous run of non-family entries that follows the last
family-level entry (restarting the run at every family entry). -/
def runAfterLastFamily (lin : List LinEntry) : List LinEntry :=
  lin.foldl (fun acc e => if e.2.2 = Level.family then [] else acc ++ [e]) []

/-- Whether `sep` is a prefix of `cs` (character-wise). -/
def isPrefixL : List Char → List Char → Bool
  | [], _ => true
  | _ :: _, [] => false
  | a :: as, b :: bs => decide (a = b) && isPrefixL as bs

/-- Python `s.split(sep)` for a non-empty separator: split at every
non-overlapping leftmost occurrence.  Fuel-driven (callers pass the
string length); fuel exhaustion returns the remainder unsplit and is
never reached at the call sites. -/
def pySplitF (sep : List Char) : Nat → List Char → List (List Char)
  | _, [] => [[]]
  | 0, cs => [cs]
  | fuel + 1, c :: rest =>
    if sep.isEmpty then [c :: rest]
    else if isPrefixL sep (c :: rest) then
      [] :: pySplitF sep fuel ((c :: rest).drop sep.length)
    else
      match pySplitF sep fuel rest with
      | [] => [[c]]
      | h :: t => (c :: h) :: t

def pySplit (s sep : String) : List String :=
  (pySplitF sep.data s.data.length s.data).map (fun cs => String.mk cs)

/-- Python `s.split(sep, 1)` when it must yield exactly two parts
(its result is unpacked into two variables): `none` models the
`ValueError` when `sep` does not occur. -/
def splitFirstL (sep : List Char) : List Char → Option (List Char × List Char)
  | [] => none
  | c :: rest =>
    if isPrefixL sep (c :: rest) && !sep.isEmpty then
      some ([], (c :: rest).drop sep.length)
    else
      (splitFirstL sep rest).map (fun p => (c :: p.1, p.2))

def splitFirst (s sep : String) : Option (String × String) :=
  (splitFirstL sep.data s.data).map (fun p => (String.mk p.1, String.mk p.2))

/-- Python `s[:-1]`. -/
def dropLastStr (s : String) : String := String.mk s.data.dropLast

/-- Python `s.strip()`. -/
def pyStrip (s : String) : String :=
  String.mk
    (((s.data.dropWhile (fun c => c.isWhitespace)).reverse.dropWhile
      (fun c => c.isWhitespace)).reverse)

/-- Unpacking a split into exactly two names; any other shape is a
`ValueError`. -/
def exactly2 : List String → Option (String × String)
  | [a, b] => some (a, b)
  | _ => none

/-- One lineage segment of `from_lff`: strip a trailing `]` when
present, then `comp.split(' [', 1)` into `(name, id)`. -/
def parseLffComp (comp : String) : Option (String × String) :=
  splitFirst
    (if comp.data.getLast? = some ']' then dropLastStr comp else comp) " ["

/-- The `for i, comp in enumerate(path.split('], '))` loop of
`from_lff`: each segment gets level family, except that for a dialect
record the first segment gets language and the later ones dialect. -/
def lffLineageAux (level : Level) : Nat → List String → Option (List RawEntry)
  | _, [] => some []
  | i, comp :: rest =>
    match parseLffComp comp with
    | none => none
    | some (nm, id_) =>
      match lffLineageAux level (i + 1) rest with
      | none => none
      | some tail =>
        some ((some nm, some id_,
          some (if level = Level.dialect then
                  (if i = 0 then Level.language else Level.dialect)
                else Level.family).toStr) :: tail)

/-- The two post-construction attribute settings of `from_lff`:
`res.level = level` and, when the iso code is non-empty,
`res.iso = isocode`. -/
def lffFinish (res : Languoid) (level : Level) (isocode : String) : Languoid :=
  if isocode = "" then
    { res with cfg := cfgSet res.cfg "core" "level" level.toStr }
  else
    { res with
      cfg := cfgSet (cfgSet res.cfg "core" "level" level.toStr) "core"
        "iso639-3" isocode }

/-- The `if path:` branch of `from_lff`: an absent or empty (falsy)
prefix yields no lineage, otherwise the prefix is split on `'], '` and
parsed segment by segment. -/
def lffPath (path : Option String) (level : Level) : Option (List RawEntry) :=
  match path with
  | none => some []
  | some p =>
    if p = "" then some [] else lffLineageAux level 0 (pySplit p "], ")

/-- `Languoid.from_lff(path, name_and_codes, level)`: parse
`Name [glottocode][isocode]` and the optional comma-space lineage
prefix, build the descriptor, construct, then set level and iso. -/
def from_lff (path : Option String) (nameAndCodes : String) (level : Level) :
    Option Languoid :=
  (splitFirst nameAndCodes "[").bind (fun pc =>
    (exactly2 (pySplit (dropLastStr pc.2) "][")).bind (fun gi =>
      (lffPath path level).bind (fun lineage =>
        (Languoid.init [("core", "name", pyStrip pc.1),
            ("core", "glottocode", gi.1)] lineage none).map (fun res =>
          lffFinish res level gi.2))))

/-- The level assigned to the segment at index `j` (0-based, root
first) of a record whose own level is `lv`, as the spec's amended rule
words it. -/
def ruleLevel (lv : Level) (j : Nat) : Level :=
  if lv = Level.dialect then
    (if j = 0 then Level.language else Level.dialect)
  else Level.family

/-- One directory entry as yielded by `Path.iterdir`, in listing
order. A file carries the parsed content of its descriptor (the
`INI.read` result). -/
inductive Entry where
  | subdir : String → Entry
  | file : String → Cfg → Entry
deriving DecidableEq, Repr

/-- The filesystem: each existing directory path (component list,
root-first) maps to its ordered listing. -/
def FS : Type := List String → Option (List Entry)

/-- `Path.name`: the last component, `''` for the root/anchor. -/
def pathName (p : List String) : String := p.getLast?.getD ""

/-- `Path.suffix`: the extension of the final component
(`name[i:]` for `i = name.rfind('.')` when `0 < i < len(name) - 1`,
else `''`). -/
def pathSuffix (n : String) : String :=
  match n.data.reverse.findIdx? (fun c => decide (c = '.')) with
  | none => ""
  | some rIdx =>
    if 0 < n.data.length - 1 - rIdx ∧
        n.data.length - 1 - rIdx < n.data.length - 1 then
      String.mk (n.data.drop (n.data.length - 1 - rIdx))
    else ""

/-- The first file entry of a listing (`for p in directory.iterdir():
if p.is_file(): ...` takes the first file and returns from the loop). -/
def firstFile : List Entry → Option (String × Cfg)
  | [] => none
  | Entry.subdir _ :: rest => firstFile rest
  | Entry.file n c :: _ => some (n, c)

/-- The `nodes` dict mapping a directory name (or, for the node's own
registration, `res.id`, which may be `None`) to a `(name, id, level)`
triple. Insertion shadows, lookup takes the most recent binding —
observationally Python dict update/lookup. -/
abbrev Cache := List (Option String × RawEntry)

def cacheLookup (c : Cache) (k : Option String) : Option RawEntry :=
  (c.find? (fun e => decide (e.1 = k))).map (fun e => e.2)

def cacheInsert (c : Cache) (k : Option String) (v : RawEntry) : Cache :=
  (k, v) :: c

mutual

/-- `Languoid.from_dir(directory, **kw)`: iterate the listing, and for
the first file assert the `.ini` suffix and delegate to `from_ini`;
with no file entry the loop falls through and returns `None`
(`.ok none`). A missing directory is an `OSError` from `iterdir`. -/
def from_dir (fuel : Nat) (fs : FS) (d : List String) (nodes : Cache) :
    Except String (Option (Languoid × Cache)) :=
  match fuel with
  | 0 => Except.error "fuel"
  | fuel + 1 =>
    match fs d with
    | none => Except.error "OSError: iterdir"
    | some listing =>
      match firstFile listing with
      | none => Except.ok none
      | some (n, cfg) =>
        if pathSuffix n = ".ini" then
          (from_ini fuel fs d cfg nodes).map (fun r => some r)
        else Except.error "AssertionError: suffix"

/-- `Languoid.from_ini(ini, nodes)`: walk the parents of the ini's
directory accumulating lineage triples (child to root), construct with
the reversed (root-first) lineage and the explicit directory, then
register the new node's own `(name, id, level)` under `res.id`. -/
def from_ini (fuel : Nat) (fs : FS) (d : List String) (cfg : Cfg)
    (nodes : Cache) : Except String (Languoid × Cache) :=
  match fuel with
  | 0 => Except.error "fuel"
  | fuel + 1 =>
    match walkParents fuel fs (pathName d) d nodes with
    | Except.error e => Except.error e
    | Except.ok (raw, nodes1) =>
      match Languoid.init cfg raw.reverse (some d) with
      | none => Except.error "AssertionError: lineage"
      | some res =>
        match res.levelRaw with
        | Except.error e => Except.error e
        | Except.ok lvl =>
          Except.ok (res, cacheInsert nodes1 res.id (res.name, res.id, lvl))

/-- The `for parent in directory.parents:` loop of `from_ini`: assert
the parent's name differs from the node directory's own name, stop at
the first name failing the identifier pattern, resolve uncached parents
through `from_dir` (a `None` return there is a fatal
`AttributeError`), and memoize. Returns the triples in child-to-root
order together with the updated cache. -/
def walkParents (fuel : Nat) (fs : FS) (selfName : String) (d : List String)
    (nodes : Cache) : Except String (List RawEntry × Cache) :=
  match fuel with
  | 0 => Except.error "fuel"
  | fuel + 1 =>
    match d with
    | [] => Except.ok ([], nodes)
    | _ :: _ =>
      let p := d.dropLast
      let id_ := pathName p
      if id_ = selfName then Except.error "AssertionError: parent name"
      else if idPatternMatch id_ then
        match
          (match cacheLookup nodes (some id_) with
           | some t => Except.ok (t, nodes)
           | none =>
             match from_dir fuel fs p nodes with
             | Except.error e => Except.error e
             | Except.ok none => Except.error "AttributeError: NoneType"
             | Except.ok (some (lg, ns)) =>
               match lg.levelRaw with
               | Except.error e => Except.error e
               | Except.ok lvl =>
                 Except.ok ((lg.name, lg.id, lvl),
                   cacheInsert ns (some id_) (lg.name, lg.id, lvl)))
        with
        | Except.error e => Except.error e
        | Except.ok (t, nodes1) =>
          match walkParents fuel fs selfName p nodes1 with
          | Except.error e => Except.error e
          | Except.ok (rest, nodes2) => Except.ok (t :: rest, nodes2)
      else Except.ok ([], nodes)

end

/-- `INI().read(path)`: the parsed content of the named file inside
directory `d`; a missing file is silently ignored by `configparser`,
yielding an empty document. -/
def readIniCfg (fs : FS) (d : List String) (fname : String) : Cfg :=
  match fs d with
  | none => []
  | some listing =>
    (listing.findSome? (fun e =>
      match e with
      | Entry.file n c => if n = fname then some c else none
      | Entry.subdir _ => none)).getD []

/-- One `from_ini` call on a named ini file starting from an explicitly
fresh empty cache, keeping only the Languoid. -/
def from_ini_fresh (fuel : Nat) (fs : FS) (d : List String) (fname : String) :
    Except String Languoid :=
  (from_ini fuel fs d (readIniCfg fs d fname) []).map (fun pr => pr.1)

/-- A sequence of `from_ini` calls that all omit the `nodes` argument:
Python evaluates the default `{}` once, so the calls share one mutable
dict, threaded here from call to call (a failing call may leave the
shared dict partially updated; the claims below only exercise
successful calls, whose threading is exact). -/
def from_ini_calls (fuel : Nat) (fs : FS) :
    List (List String × String) → Cache → List (Except String Languoid)
  | [], _ => []
  | (d, f) :: rest, nodes =>
    match from_ini fuel fs d (readIniCfg fs d f) nodes with
    | Except.ok (l, nodes2) =>
      Except.ok l :: from_ini_calls fuel fs rest nodes2
    | Except.error e => Except.error e :: from_ini_calls fuel fs rest nodes

/-- The lineage of a call result, for comparing observable outcomes. -/
def resLineage (r : Except String Languoid) : Option (List LinEntry) :=
  (r.toOption).map (fun l => l.lineage)

/-- The `for parent in self.dir.parents:` loop of the `ancestors`
property: for each parent whose name matches the identifier pattern,
append the result of `Languoid.from_dir(parent)` (possibly `None`);
stop at the first non-matching component. Child-to-root order. -/
def ancestorsAux (fuel : Nat) (fs : FS) (d : List String) (nodes : Cache) :
    Except String (List (Option Languoid) × Cache) :=
  match fuel with
  | 0 => Except.error "fuel"
  | fuel + 1 =>
    match d with
    | [] => Except.ok ([], nodes)
    | _ :: _ =>
      let p := d.dropLast
      if idPatternMatch (pathName p) then
        match from_dir fuel fs p nodes with
        | Except.error e => Except.error e
        | Except.ok r =>
          match ancestorsAux fuel fs p
              (match r with
               | none => nodes
               | some (_, ns) => ns) with
          | Except.error e => Except.error e
          | Except.ok (rest, nodes2) =>
            Except.ok ((match r with
                        | none => none
                        | some (lg, _) => some lg) :: rest, nodes2)
      else Except.ok ([], nodes)

/-- `Languoid.ancestors`: the parent walk reversed to root-first
order. -/
def Languoid.ancestors (fuel : Nat) (fs : FS) (l : Languoid)
    (nodes : Cache) : Except String (List (Option Languoid) × Cache) :=
  (ancestorsAux fuel fs l.dir nodes).map (fun pr => (pr.1.reverse, pr.2))

/-- `Languoid.parent`: `ancestors[-1] if ancestors else None`. -/
def Languoid.parent (fuel : Nat) (fs : FS) (l : Languoid) (nodes : Cache) :
    Except String (Option Languoid) :=
  (Languoid.ancestors fuel fs l nodes).map (fun pr =>
    match pr.1.getLast? with
    | some o => o
    | none => none)

/-- `Languoid.family`: `ancestors[0] if ancestors else None`. -/
def Languoid.family (fuel : Nat) (fs : FS) (l : Languoid) (nodes : Cache) :
    Except String (Option Languoid) :=
  (Languoid.ancestors fuel fs l nodes).map (fun pr =>
    match pr.1.head? with
    | some o => o
    | none => none)

def subdirNames (listing : List Entry) : List String :=
  listing.filterMap (fun e =>
    match e with
    | Entry.subdir n => some n
    | Entry.file _ _ => none)

/-- `clldutils.path.walk(tree, mode='dirs')` over `os.walk`: yield the
subdirectories of the current directory, then recurse into each in
listing order. -/
def walkDirs (fs : FS) : Nat → List String → List (List String)
  | 0, _ => []
  | fuel + 1, p =>
    match fs p with
    | none => []
    | some listing =>
      (subdirNames listing).map (fun n => p ++ [n]) ++
        (subdirNames listing).flatMap (fun n => walkDirs fs fuel (p ++ [n]))

/-- `find_languoid(tree, glottocode)`: the first walked directory whose
name equals the code is loaded via `from_dir`; no match returns
`None`. -/
def find_languoid (fuel : Nat) (fs : FS) (tree : List String) (code : String)
    (nodes : Cache) : Except String (Option (Languoid × Cache)) :=
  match (walkDirs fs fuel tree).find? (fun p => decide (pathName p = code)) with
  | some p => from_dir fuel fs p nodes
  | none => Except.ok none

/-- A directory with no file entries and one with two descriptor
files, for C3. -/
def fsC3 : FS := fun p =>
  if p = ["d0"] then some [Entry.subdir "sub"]
  else if p = ["d2"] then
    some [Entry.file "aaaa1111.ini"
            [("core", "name", "First"), ("core", "glottocode", "aaaa1111"),
             ("core", "level", "language")],
          Entry.file "bbbb2222.ini"
            [("core", "name", "Second"), ("core", "glottocode", "bbbb2222"),
             ("core", "level", "language")]]
  else none

/-- Two trees whose node directories share the name `abcd1234` but hold
different descriptors, for C4: the shared default cache makes the
second call observe the first call's parent data. -/
def fsC4 : FS := fun p =>
  if p = [] then some [Entry.subdir "t1", Entry.subdir "t2"]
  else if p = ["t1"] then some [Entry.subdir "abcd1234"]
  else if p = ["t1", "abcd1234"] then
    some [Entry.file "abcd1234.ini"
            [("core", "name", "One"), ("core", "glottocode", "abcd1234"),
             ("core", "level", "family")],
          Entry.subdir "wxyz1111"]
  else if p = ["t1", "abcd1234", "wxyz1111"] then
    some [Entry.file "wxyz1111.ini"
            [("core", "name", "W1"), ("core", "glottocode", "wxyz1111"),
             ("core", "level", "language")]]
  else if p = ["t2"] then some [Entry.subdir "abcd1234"]
  else if p = ["t2", "abcd1234"] then
    some [Entry.file "abcd1234.ini"
            [("core", "name", "Two"), ("core", "glottocode", "abcd1234"),
             ("core", "level", "family")],
          Entry.subdir "wxyz2222"]
  else if p = ["t2", "abcd1234", "wxyz2222"] then
    some [Entry.file "wxyz2222.ini"
            [("core", "name", "W2"), ("core", "glottocode", "wxyz2222"),
             ("core", "level", "language")]]
  else none

/-- The descriptor contents of the C9 example trees. -/
def cfgFam : Cfg :=
  [("core", "name", "Fam"), ("core", "glottocode", "abcd1234"),
   ("core", "level", "family")]

def cfgLang : Cfg :=
  [("core", "name", "Lang"), ("core", "glottocode", "lang5678"),
   ("core", "level", "language")]

def cfgXyz : Cfg :=
  [("core", "name", "Xyz"), ("core", "glottocode", "xyz19999"),
   ("core", "level", "dialect")]

def cfgFamBad : Cfg :=
  [("core", "name", "FamBad"), ("core", "glottocode", "abc1fam1"),
   ("core", "level", "family")]

/-- The claim's tree with the family id corrected to a valid code:
`root/abcd1234/lang5678/xyz19999`. -/
def fsC9good : FS := fun p =>
  if p = [] then some [Entry.subdir "root"]
  else if p = ["root"] then some [Entry.subdir "abcd1234"]
  else if p = ["root", "abcd1234"] then
    some [Entry.file "abcd1234.ini" cfgFam, Entry.subdir "lang5678"]
  else if p = ["root", "abcd1234", "lang5678"] then
    some [Entry.file "lang5678.ini" cfgLang, Entry.subdir "xyz19999"]
  else if p = ["root", "abcd1234", "lang5678", "xyz19999"] then
    some [Entry.file "xyz19999.ini" cfgXyz]
  else none

/-- The claim's tree verbatim: `root/abc1fam1/lang5678/xyz19999`. -/
def fsC9bad : FS := fun p =>
  if p = [] then some [Entry.subdir "root"]
  else if p = ["root"] then some [Entry.subdir "abc1fam1"]
  else if p = ["root", "abc1fam1"] then
    some [Entry.file "abc1fam1.ini" cfgFamBad, Entry.subdir "lang5678"]
  else if p = ["root", "abc1fam1", "lang5678"] then
    some [Entry.file "lang5678.ini" cfgLang, Entry.subdir "xyz19999"]
  else if p = ["root", "abc1fam1", "lang5678", "xyz19999"] then
    some [Entry.file "xyz19999.ini" cfgXyz]
  else none

/-- The ancestors list of a `find_languoid` result (threading the
traversal's cache into the property evaluation, as the shared default
dict does within one process). -/
def foundAncestors (fuel : Nat) (fs : FS)
    (r : Except String (Option (Languoid × Cache))) :
    Option (List (Option Languoid)) :=
  match r with
  | Except.ok (some (l, c)) =>
    match Languoid.ancestors fuel fs l c with
    | Except.ok (as, _) => some as
    | Except.error _ => none
  | _ => none

/-- The proper-prefix chain of a directory path (its `Path.parents`),
nearest parent first is `d.take (d.length - 1)`, the root `[]` last. -/
def parentChain (d : List String) : List (List String) :=
  ((List.range d.length).map (fun k => d.take k)).reverse

theorem glottoAlt_eq_specGlotto (cs : List Char) :
    glottoAlt cs = specGlotto (String.mk cs) := rfl

theorem nocodeAlt_eq_specNocode (cs : List Char) :
    nocodeAlt cs = specNocode (String.mk cs) := by
  by_cases h6 : cs.take 6 = ['N', 'O', 'C', 'O', 'D', 'E']
  · have hcs : cs = ['N', 'O', 'C', 'O', 'D', 'E'] ++ cs.drop 6 := by
      conv_lhs => rw [← List.take_append_drop 6 cs, h6]
    rcases hrest : cs.drop 6 with _ | ⟨r, rs⟩
    · rw [hrest] at hcs
      subst hcs
      decide
    · rw [hrest] at hcs
      rw [hcs]
      by_cases hr : r = '_'
      · subst hr
        rcases rs with _ | ⟨a, as⟩
        · decide
        · norm_num [nocodeAlt, nocodeTail, specNocode]
          intro h
          have hd : ('N' :: 'O' :: 'C' :: 'O' :: 'D' :: 'E' :: '_' :: a :: as :
              List Char) = ['N', 'O', 'C', 'O', 'D', 'E'] := congrArg String.data h
          simp at hd
      · have hNOC : ¬ (String.mk ('N' :: 'O' :: 'C' :: 'O' :: 'D' :: 'E' :: r :: rs)
            = "NOCODE") := by
          intro hEq
          have hd : ('N' :: 'O' :: 'C' :: 'O' :: 'D' :: 'E' :: r :: rs :
              List Char) = ['N', 'O', 'C', 'O', 'D', 'E'] := congrArg String.data hEq
          simp at hd
        have h7 : ¬ ((['N', 'O', 'C', 'O', 'D', 'E'] ++ r :: rs).take 7 =
            (['N', 'O', 'C', 'O', 'D', 'E', '_'] : List Char)) := by
          intro h
          have h' : ('N' :: 'O' :: 'C' :: 'O' :: 'D' :: 'E' :: r :: ([] : List Char)) =
              ('N' :: 'O' :: 'C' :: 'O' :: 'D' :: 'E' :: '_' :: []) := h
          simp at h'
          exact hr h'
        simp [nocodeAlt, specNocode, nocodeTail, hNOC, h7, hr]
  · have hNO : ¬ (String.mk cs = "NOCODE") := by
      intro hEq
      have hd : cs = ['N', 'O', 'C', 'O', 'D', 'E'] := congrArg String.data hEq
      apply h6
      rw [hd]
      rfl
    have h7 : ¬ (cs.take 7 = (['N', 'O', 'C', 'O', 'D', 'E', '_'] : List Char)) := by
      intro h7'
      apply h6
      have htt : cs.take 6 = (cs.take 7).take 6 := by
        rw [List.take_take]
        norm_num
      rw [htt, h7']
      rfl
    simp [nocodeAlt, specNocode, h6, hNO, h7]

/-- Claim C7 (counterexample): the validator accepts the string
`"abcd1234\n"` — Python's `$` matches just before a final newline — even
though that string is not of either shape the claim allows, so the
claimed "if and only if" fails. -/
theorem c7_counterexample :
    idPatternMatch "abcd1234\n" = true ∧ specIdForm "abcd1234\n" = false := by
  constructor <;> decide

/-- Claim C7 (amended): the Identifier Validator accepts `s` if and only
if `s`, after removal of at most one string-final newline character, is
exactly 4 lowercase-alphanumeric characters followed by exactly 4
digits, or the literal `"NOCODE"` optionally followed by `_` and a
non-empty alphanumeric/hyphen suffix; in particular it accepts
`"abcd1234"` and `"NOCODE_Foo-1"` and rejects `"AB1234"` and
`"abcd123"`. -/
theorem c7_amended :
    (∀ s : String,
      idPatternMatch s = specIdForm (String.mk (stripFinalNewline s.data))) ∧
    idPatternMatch "abcd1234" = true ∧
    idPatternMatch "NOCODE_Foo-1" = true ∧
    idPatternMatch "AB1234" = false ∧
    idPatternMatch "abcd123" = false := by
  refine ⟨fun s => ?_, by decide, by decide, by decide, by decide⟩
  unfold idPatternMatch specIdForm
  rw [glottoAlt_eq_specGlotto, nocodeAlt_eq_specNocode]

/-- Claim C1 (counterexample): a `Languoid` constructed without a
directory override, with lineage id `abcd1234` and own glottocode
`wxyz5678`, gets the derived directory `TREE ++ [abcd1234]` — the
ancestor ids only.  The claimed location `TREE ++ [abcd1234, wxyz5678]`
(lineage ids followed by the node's own id) differs: `__init__` joins
only `[id for name, id, _ in self.lineage]` and never appends
`self.id`. -/
theorem c1_counterexample :
    (Languoid.init [("core", "name", "Node"), ("core", "glottocode", "wxyz5678")]
        [(some "Anc", some "abcd1234", some "family")] none).map
        (fun l => (l.dir, Languoid.id l)) =
      some (TREE ++ ["abcd1234"], some "wxyz5678") ∧
    TREE ++ ["abcd1234"] ≠ TREE ++ ["abcd1234", "wxyz5678"] := by
  exact ⟨rfl, by decide⟩

/-- Claim C1 (amended): for every Languoid constructed without an
explicit directory override, the derived location is the tree root
followed by the id sequence of its lineage (root-first); the node's own
id is not appended. -/
theorem c1_amended (cfg : Cfg) (raw : List RawEntry) (l : Languoid)
    (h : Languoid.init cfg raw none = some l) :
    l.dir = TREE ++ l.lineage.map (fun e => e.2.1) := by
  unfold Languoid.init at h
  split at h
  · cases hm : convLineage raw with
    | none => rw [hm] at h; cases h
    | some lin =>
      rw [hm] at h
      simp only [Option.map_some'] at h
      injection h with h2
      rw [← h2]
  · cases h

/-- Witness for the amended C1 at a concrete input. -/
theorem c1_amended_witness :
    ({ cfg := [("core", "name", "Node"), ("core", "glottocode", "wxyz5678")],
       lineage := [(some "Anc", "abcd1234", Level.family)],
       dir := TREE ++ ["abcd1234"] } : Languoid).dir =
      TREE ++ (({ cfg := [("core", "name", "Node"),
                          ("core", "glottocode", "wxyz5678")],
                  lineage := [(some "Anc", "abcd1234", Level.family)],
                  dir := TREE ++ ["abcd1234"] } : Languoid).lineage.map
          (fun e => e.2.1)) :=
  c1_amended [("core", "name", "Node"), ("core", "glottocode", "wxyz5678")]
    [(some "Anc", some "abcd1234", some "family")] _ rfl

theorem convLineage_isSome (raw : List RawEntry)
    (h : ∀ e ∈ raw, (convEntry e).isSome = true) :
    ∃ lin, convLineage raw = some lin := by
  induction raw with
  | nil => exact ⟨[], rfl⟩
  | cons e rest ih =>
    obtain ⟨lin, hl⟩ := ih (fun x hx => h x (List.mem_cons_of_mem _ hx))
    have he := h e (List.mem_cons_self _ _)
    cases hy : convEntry e with
    | none => rw [hy] at he; cases he
    | some y => exact ⟨y :: lin, by simp [convLineage, hy, hl]⟩

/-- Claim C8: Languoid construction fails whenever a supplied lineage
entry has an id failing the Identifier Validator or a level outside the
level enum, and succeeds on this check for a fully valid lineage. -/
theorem c8_theorem :
    (∀ (cfg : Cfg) (raw : List RawEntry) (dir? : Option (List String))
        (n : Option String) (i lv : String),
        (n, some i, some lv) ∈ raw →
        (idPatternMatch i = false ∨ Level.ofString lv = none) →
        Languoid.init cfg raw dir? = none) ∧
    (∀ (cfg : Cfg) (raw : List RawEntry) (dir? : Option (List String)),
        (∀ e ∈ raw, ∃ (n : Option String) (i lv : String),
          e = (n, some i, some lv) ∧ idPatternMatch i = true ∧
            (Level.ofString lv).isSome = true) →
        ∃ l, Languoid.init cfg raw dir? = some l) := by
  constructor
  · intro cfg raw dir? n i lv hmem hbad
    have hko : entryOK (n, some i, some lv) = false := by
      rcases hbad with hb | hb <;> simp [entryOK, hb]
    have hnall : ¬ (raw.all entryOK = true) := by
      intro hall
      have := List.all_eq_true.mp hall _ hmem
      rw [hko] at this
      cases this
    unfold Languoid.init
    rw [if_neg hnall]
  · intro cfg raw dir? h
    have hall : raw.all entryOK = true := by
      apply List.all_eq_true.mpr
      intro e he
      obtain ⟨n, i, lv, hE, hi, hlv⟩ := h e he
      subst hE
      simp [entryOK, hi, hlv]
    have hconv : ∀ e ∈ raw, (convEntry e).isSome = true := by
      intro e he
      obtain ⟨n, i, lv, hE, hi, hlv⟩ := h e he
      subst hE
      cases hs : Level.ofString lv with
      | none => rw [hs] at hlv; cases hlv
      | some _ => simp [convEntry, hs]
    obtain ⟨lin, hl⟩ := convLineage_isSome raw hconv
    refine ⟨{ cfg := cfg, lineage := lin,
              dir :=
                match dir? with
                | some d => d
                | none => TREE ++ lin.map (fun e => e.2.1) }, ?_⟩
    unfold Languoid.init
    rw [if_pos hall, hl]
    rfl

/-- Witness for C8 at concrete inputs: an invalid id fails construction,
a valid lineage passes it. -/
theorem c8_witness :
    Languoid.init [] [(some "Bad", some "abcd123", some "family")] none = none ∧
    (Languoid.init [] [(some "Good", some "abcd1234", some "family")]
        none).isSome = true := by
  constructor
  · exact c8_theorem.1 [] _ none (some "Bad") "abcd123" "family"
      (List.mem_cons_self _ _) (Or.inl (by decide))
  · obtain ⟨l, hl⟩ := c8_theorem.2 []
      [(some "Good", some "abcd1234", some "family")] none
      (by intro e he
          refine ⟨some "Good", "abcd1234", "family", ?_, by decide, by decide⟩
          simpa using he)
    rw [hl]
    rfl

theorem reverse_takeWhile_eq_run (lin : List LinEntry) :
    (lin.reverse.takeWhile (fun e => !decide (e.2.2 = Level.family))).reverse =
      runAfterLastFamily lin := by
  induction lin using List.reverseRecOn with
  | nil => rfl
  | append_singleton xs e ih =>
    rw [List.reverse_append]
    simp only [List.reverse_singleton, List.singleton_append]
    by_cases he : e.2.2 = Level.family
    · simp [List.takeWhile_cons, he, runAfterLastFamily, List.foldl_append]
    · simp only [List.takeWhile_cons, he, decide_False, Bool.not_false,
        if_true, List.reverse_cons, decide_eq_true_eq]
      rw [ih]
      simp [runAfterLastFamily, List.foldl_append, he]

theorem fmtL_ne_empty (e : LinEntry) : ¬ fmtL e = "" := by
  intro h
  have h2 := congrArg String.length h
  rw [fmtL] at h2
  rw [String.length_append, String.length_append, String.length_append] at h2
  have hb : (" [" : String).length = 2 := rfl
  have hc : ("]" : String).length = 1 := rfl
  have hz : ("" : String).length = 0 := rfl
  rw [hb, hc, hz] at h2
  omega

theorem joinComma_cons_ne_empty (s : String) (rest : List String)
    (hs : ¬ s = "") : ¬ joinComma (s :: rest) = "" := by
  cases rest with
  | nil => simpa [joinComma] using hs
  | cons t ts =>
    intro h
    have h2 := congrArg String.length h
    have h3 : joinComma (s :: t :: ts) = s ++ ", " ++ joinComma (t :: ts) := rfl
    rw [h3] at h2
    rw [String.length_append, String.length_append] at h2
    have hz : ("" : String).length = 0 := rfl
    rw [hz] at h2
    have hs2 : s.length = 0 := by omega
    apply hs
    cases s with
    | mk d =>
      cases d with
      | nil => rfl
      | cons c cs => simp [String.length] at hs2

/-- Claim C5 (counterexample): a dialect-level Languoid whose non-empty
lineage consists of a single family-level ancestor has an empty run
after the last family entry; the claim then says the label is the join
of that run — the empty string — but `lff_group` returns the literal
`ERROR [-unclassified-]` instead. -/
theorem c5_counterexample :
    Languoid.lff_group
      { cfg := [("core", "name", "D"), ("core", "glottocode", "wxyz5678"),
                ("core", "level", "dialect")],
        lineage := [(some "A", "abcd1234", Level.family)],
        dir := ["abcd1234"] } = Except.ok "ERROR [-unclassified-]" ∧
    runAfterLastFamily [(some "A", "abcd1234", Level.family)] = [] ∧
    joinComma ((runAfterLastFamily
        [(some "A", "abcd1234", Level.family)]).map fmtL) = "" ∧
    ("ERROR [-unclassified-]" : String) ≠ "" := by
  exact ⟨rfl, rfl, rfl, by decide⟩

/-- Claim C5 (amended): for every dialect-level Languoid with non-empty
lineage whose run of non-family entries after the last family-level
ancestor is itself non-empty, `lff_group` returns the comma-space join
of `Name [id]` over exactly that run, in root-first order; when the run
is empty the `ERROR [-unclassified-]` fallback is returned instead (see
the counterexample and C6). -/
theorem c5_amended (l : Languoid)
    (hlv : Languoid.levelRaw l = Except.ok (some "dialect"))
    (hne : l.lineage ≠ [])
    (hrun : runAfterLastFamily l.lineage ≠ []) :
    Languoid.lff_group l =
      Except.ok (joinComma ((runAfterLastFamily l.lineage).map fmtL)) := by
  unfold Languoid.lff_group
  rw [hlv]
  have hjoin : ¬ joinComma ((runAfterLastFamily l.lineage).map fmtL) = "" := by
    cases hr : runAfterLastFamily l.lineage with
    | nil => exact absurd hr hrun
    | cons r0 rr =>
      rw [List.map_cons]
      exact joinComma_cons_ne_empty _ _ (fmtL_ne_empty r0)
  simp [hne, reverse_takeWhile_eq_run, hjoin]

/-- Witness for the amended C5 at a concrete dialect with lineage
`family, language`: the label keeps only the run after the family. -/
theorem c5_amended_witness :
    Languoid.lff_group
      { cfg := [("core", "name", "D"), ("core", "glottocode", "wxyz5678"),
                ("core", "level", "dialect")],
        lineage := [(some "A", "abcd1234", Level.family),
                    (some "B", "efgh5678", Level.language)],
        dir := [] } =
      Except.ok (joinComma ((runAfterLastFamily
        [(some "A", "abcd1234", Level.family),
         (some "B", "efgh5678", Level.language)]).map fmtL)) :=
  c5_amended _ rfl (by decide) (by decide)

/-- Claim C6: an empty-lineage Languoid gets the literal isolate label
`<Name> [-isolate-]`; a dialect with non-empty lineage made only of
family-level entries (empty computed join) gets the literal
`ERROR [-unclassified-]`. -/
theorem c6_theorem :
    (∀ (l : Languoid) (lv : Option String) (n : String),
        Languoid.levelRaw l = Except.ok lv → l.lineage = [] →
        Languoid.name l = some n →
        Languoid.lff_group l = Except.ok (n ++ " [-isolate-]")) ∧
    (∀ l : Languoid,
        Languoid.levelRaw l = Except.ok (some "dialect") → l.lineage ≠ [] →
        (∀ e ∈ l.lineage, e.2.2 = Level.family) →
        Languoid.lff_group l = Except.ok "ERROR [-unclassified-]") := by
  constructor
  · intro l lv n hlv hlin hname
    unfold Languoid.lff_group
    rw [hlv]
    have : fmtName l.name = n := by rw [hname]; rfl
    simp [hlin, this]
  · intro l hlv hne hfam
    unfold Languoid.lff_group
    rw [hlv]
    have hrev : l.lineage.reverse.takeWhile
        (fun e => !decide (e.2.2 = Level.family)) = [] := by
      cases hr : l.lineage.reverse with
      | nil => rfl
      | cons y ys =>
        have hy : y ∈ l.lineage := by
          have hmem : y ∈ l.lineage.reverse := by
            rw [hr]
            exact List.mem_cons_self _ _
          simpa using hmem
        simp [List.takeWhile_cons, hfam y hy]
    simp [hne, hrev, joinComma]

/-- Witness for C6 at concrete inputs: an isolate and an all-family
dialect. -/
theorem c6_witness :
    Languoid.lff_group
      { cfg := [("core", "name", "Iso"), ("core", "glottocode", "abcd1234"),
                ("core", "level", "language")],
        lineage := [], dir := [] } = Except.ok "Iso [-isolate-]" ∧
    Languoid.lff_group
      { cfg := [("core", "name", "DD"), ("core", "glottocode", "abcd1234"),
                ("core", "level", "dialect")],
        lineage := [(some "F", "wxyz5678", Level.family)],
        dir := [] } = Except.ok "ERROR [-unclassified-]" := by
  constructor
  · exact c6_theorem.1 _ (some "language") "Iso" rfl rfl rfl
  · exact c6_theorem.2 _ rfl (by decide) (by decide)

theorem Level.ofString_toStr (lv : Level) : Level.ofString lv.toStr = some lv := by
  cases lv <;> rfl

theorem lffFinish_lineage (res : Languoid) (level : Level) (isocode : String) :
    (lffFinish res level isocode).lineage = res.lineage := by
  unfold lffFinish
  split <;> rfl

theorem init_convLineage (cfg : Cfg) (raw : List RawEntry)
    (d? : Option (List String)) (l : Languoid)
    (h : Languoid.init cfg raw d? = some l) :
    convLineage raw = some l.lineage := by
  unfold Languoid.init at h
  split at h
  · cases hm : convLineage raw with
    | none => rw [hm] at h; cases h
    | some lin =>
      rw [hm] at h
      simp only [Option.map_some'] at h
      injection h with h2
      rw [← h2]
  · cases h

theorem lff_levels (level : Level) (comps : List String) :
    ∀ (i : Nat) (raw : List RawEntry) (lin : List LinEntry),
      lffLineageAux level i comps = some raw →
      convLineage raw = some lin →
      lin.map (fun e => e.2.2) =
        (List.range comps.length).map (fun j => ruleLevel level (i + j)) := by
  induction comps with
  | nil =>
    intro i raw lin h1 h2
    injection h1 with h1
    subst h1
    injection h2 with h2
    subst h2
    rfl
  | cons c rest ih =>
    intro i raw lin h1 h2
    unfold lffLineageAux at h1
    cases hp : parseLffComp c with
    | none => rw [hp] at h1; cases h1
    | some p =>
      rw [hp] at h1
      obtain ⟨nm, id_⟩ := p
      cases ht : lffLineageAux level (i + 1) rest with
      | none => rw [ht] at h1; cases h1
      | some tail =>
        rw [ht] at h1
        injection h1 with h1
        subst h1
        unfold convLineage at h2
        have hce : convEntry (some nm, some id_,
            some (if level = Level.dialect then
                    (if i = 0 then Level.language else Level.dialect)
                  else Level.family).toStr) =
            some (some nm, id_,
              (if level = Level.dialect then
                 (if i = 0 then Level.language else Level.dialect)
               else Level.family)) := by
          simp only [convEntry, Level.ofString_toStr, Option.map_some']
        rw [hce] at h2
        cases htl : convLineage tail with
        | none => rw [htl] at h2; cases h2
        | some lin' =>
          rw [htl] at h2
          injection h2 with h2
          subst h2
          have ihr := ih (i + 1) tail lin' ht htl
          rw [List.map_cons, ihr, List.length_cons, List.range_succ_eq_map,
            List.map_cons, List.map_map]
          congr 1
          apply List.map_congr_left
          intro j hj
          simp only [Function.comp_apply]
          have hadd : i + 1 + j = i + (j + 1) := by omega
          rw [hadd]

/-- Claim C2 (counterexample): a dialect record with a two-segment
lineage prefix gets levels `[language, dialect]` — the segment after the
first is assigned level dialect, not family as claimed. -/
theorem c2_counterexample :
    (from_lff (some "A [abcd1234], B [efgh5678]") "C [ijkl9012][]"
        Level.dialect).map (fun l => l.lineage.map (fun e => e.2.2)) =
      some [Level.language, Level.dialect] ∧
    ([Level.language, Level.dialect] : List Level) ≠
      [Level.language, Level.family] := by
  exact ⟨rfl, by decide⟩

/-- Claim C2 (amended): for a record parsed by `from_lff`, the lineage
segment at index `j` (root-first) is assigned level family when the
record's own level is not dialect; when it is dialect, index 0 gets
language and every later index gets dialect.  The concrete example of
the claim holds: `"Proto-Foo [abcd1234]"` with
`"Bar [wxyz5678][xyz]"` at level dialect yields lineage
`[(Proto-Foo, abcd1234, language)]` and iso `xyz`. -/
theorem c2_amended :
    (∀ (path : Option String) (nc : String) (lv : Level) (l : Languoid),
        from_lff path nc lv = some l →
        l.lineage.map (fun e => e.2.2) =
          (List.range l.lineage.length).map (fun j => ruleLevel lv j)) ∧
    (from_lff (some "Proto-Foo [abcd1234]") "Bar [wxyz5678][xyz]"
        Level.dialect).map (fun l => (l.lineage, Languoid.iso l)) =
      some ([(some "Proto-Foo", "abcd1234", Level.language)], some "xyz") := by
  constructor
  · intro path nc lv l h
    unfold from_lff at h
    cases h0 : splitFirst nc "[" with
    | none => rw [h0] at h; cases h
    | some p0 =>
      rw [h0, Option.some_bind] at h
      cases h1 : exactly2 (pySplit (dropLastStr p0.2) "][") with
      | none => rw [h1] at h; cases h
      | some p1 =>
        rw [h1, Option.some_bind] at h
        cases h2 : lffPath path lv with
        | none => rw [h2] at h; cases h
        | some lineage =>
          rw [h2, Option.some_bind] at h
          cases h3 : Languoid.init
              [("core", "name", pyStrip p0.1),
               ("core", "glottocode", p1.1)] lineage none with
          | none => rw [h3] at h; cases h
          | some res =>
            rw [h3] at h
            simp only [Option.map_some'] at h
            injection h with h4
            have hlin : l.lineage = res.lineage := by
              rw [← h4, lffFinish_lineage]
            have hconv := init_convLineage _ _ _ _ h3
            rcases path with _ | p
            · rw [show lffPath none lv = some [] from rfl] at h2
              injection h2 with h2
              subst h2
              injection hconv with hconv
              rw [hlin, ← hconv]
              rfl
            · rw [show lffPath (some p) lv =
                  (if p = "" then some []
                   else lffLineageAux lv 0 (pySplit p "], ")) from rfl] at h2
              by_cases hp : p = ""
              · rw [if_pos hp] at h2
                injection h2 with h2
                subst h2
                injection hconv with hconv
                rw [hlin, ← hconv]
                rfl
              · rw [if_neg hp] at h2
                have hlev := lff_levels lv (pySplit p "], ") 0 lineage
                  l.lineage h2 (by rw [hlin]; exact hconv)
                have hlens : l.lineage.length = (pySplit p "], ").length := by
                  have hlc := congrArg List.length hlev
                  simpa using hlc
                rw [hlens]
                simpa using hlev
  · rfl

/-- Witness for the amended C2 applied at the claim's own concrete
example. -/
theorem c2_amended_witness :
    ([(some "Proto-Foo", "abcd1234", Level.language)] : List LinEntry).map
        (fun e => e.2.2) =
      (List.range ([(some "Proto-Foo", "abcd1234", Level.language)] :
          List LinEntry).length).map (fun j => ruleLevel Level.dialect j) :=
  c2_amended.1 (some "Proto-Foo [abcd1234]") "Bar [wxyz5678][xyz]"
    Level.dialect
    { cfg := [("core", "iso639-3", "xyz"), ("core", "level", "dialect"),
              ("core", "name", "Bar"), ("core", "glottocode", "wxyz5678")],
      lineage := [(some "Proto-Foo", "abcd1234", Level.language)],
      dir := TREE ++ ["abcd1234"] } rfl

/-- Claim C3 (counterexample): on a directory with zero files `from_dir`
silently returns the absent value (`.ok none`, not an error), and on a
directory with two candidate descriptor files it silently loads the
first one in listing order. -/
theorem c3_counterexample :
    from_dir 5 fsC3 ["d0"] [] = Except.ok none ∧
    (from_dir 5 fsC3 ["d2"] []).map
        (fun r => r.map (fun lc => Languoid.name lc.1)) =
      Except.ok (some (some "First")) := by
  exact ⟨rfl, rfl⟩

/-- Claim C3 (amended): `from_dir` returns the absent value when the
directory has no file entries; otherwise it takes the first file in
listing order, fails only when that file's suffix is not `.ini`, and
otherwise loads it via `from_ini`, ignoring any later files. -/
theorem c3_amended (fuel : Nat) (fs : FS) (d : List String) (nodes : Cache)
    (listing : List Entry) (hfs : fs d = some listing) :
    (firstFile listing = none →
      from_dir (fuel + 1) fs d nodes = Except.ok none) ∧
    (∀ (n : String) (cfg : Cfg), firstFile listing = some (n, cfg) →
      (pathSuffix n ≠ ".ini" →
        from_dir (fuel + 1) fs d nodes = Except.error "AssertionError: suffix") ∧
      (pathSuffix n = ".ini" →
        from_dir (fuel + 1) fs d nodes =
          (from_ini fuel fs d cfg nodes).map (fun r => some r))) := by
  constructor
  · intro hff
    simp only [from_dir, hfs, hff]
  · intro n cfg hff
    constructor
    · intro hsuf
      simp only [from_dir, hfs, hff]
      rw [if_neg hsuf]
    · intro hsuf
      simp only [from_dir, hfs, hff]
      rw [if_pos hsuf]

/-- Witness for the amended C3 at the concrete empty directory. -/
theorem c3_amended_witness :
    from_dir 5 fsC3 ["d0"] [] = Except.ok none :=
  (c3_amended 4 fsC3 ["d0"] [] [Entry.subdir "sub"] rfl).1 rfl

/-- Claim C4 (counterexample): two sequential `from_ini` calls that omit
the cache share Python's once-evaluated default dict; the second call
resolves its `abcd1234` parent from the first call's cache entry
(`name One`), whereas the same call against an explicit fresh empty
cache reads the descriptor on disk (`name Two`). The result of a call
omitting the cache therefore depends on the calls made before it. -/
theorem c4_counterexample :
    (from_ini_calls 12 fsC4
        [(["t1", "abcd1234", "wxyz1111"], "wxyz1111.ini"),
         (["t2", "abcd1234", "wxyz2222"], "wxyz2222.ini")] []).map resLineage =
      [some [(some "One", "abcd1234", Level.family)],
       some [(some "One", "abcd1234", Level.family)]] ∧
    resLineage (from_ini_fresh 12 fsC4 ["t2", "abcd1234", "wxyz2222"]
        "wxyz2222.ini") = some [(some "Two", "abcd1234", Level.family)] ∧
    (some [(some "One", "abcd1234", Level.family)] :
        Option (List LinEntry)) ≠
      some [(some "Two", "abcd1234", Level.family)] := by
  exact ⟨rfl, rfl, by decide⟩

/-- Claim C4 (amended): the cache argument defaults to one shared
mutable dict evaluated once (Python default-argument semantics), so
calls omitting it do not start from independent empty caches: the first
call of a sequence behaves exactly as a call given a fresh empty cache,
but a later call can observe entries left by earlier calls and return a
different result than it would with a fresh cache. -/
theorem c4_amended :
    (∀ (fuel : Nat) (fs : FS) (d : List String) (f : String),
        from_ini_calls fuel fs [(d, f)] [] = [from_ini_fresh fuel fs d f]) ∧
    (from_ini_calls 12 fsC4
        [(["t1", "abcd1234", "wxyz1111"], "wxyz1111.ini"),
         (["t2", "abcd1234", "wxyz2222"], "wxyz2222.ini")] []).map resLineage ≠
      [resLineage (from_ini_fresh 12 fsC4 ["t1", "abcd1234", "wxyz1111"]
          "wxyz1111.ini"),
       resLineage (from_ini_fresh 12 fsC4 ["t2", "abcd1234", "wxyz2222"]
          "wxyz2222.ini")] := by
  constructor
  · intro fuel fs d f
    unfold from_ini_calls from_ini_fresh
    cases hr : from_ini fuel fs d (readIniCfg fs d f) [] with
    | ok pr =>
      obtain ⟨l, ns⟩ := pr
      rfl
    | error e => rfl
  · decide

/-- Claim C9 (counterexample): in the claim's own tree
`root/abc1fam1/lang5678/xyz19999`, the component `abc1fam1` fails the
Identifier Validator (`fam1` is not four digits), so the parent walk of
`findByCode(root, "xyz19999")` stops there: `ancestors` is the
one-element list containing only the `lang5678` node, not the claimed
two-element list `[abc1fam1-node, lang5678-node]`. -/
theorem c9_counterexample :
    idPatternMatch "abc1fam1" = false ∧
    foundAncestors 12 fsC9bad (find_languoid 12 fsC9bad [] "xyz19999" []) =
      some [some { cfg := cfgLang, lineage := [],
                   dir := ["root", "abc1fam1", "lang5678"] }] ∧
    ([some ({ cfg := cfgLang, lineage := [],
              dir := ["root", "abc1fam1", "lang5678"] } : Languoid)].length = 1 ∧
      (1 : Nat) ≠ 2) := by
  exact ⟨by decide, rfl, rfl, by decide⟩

/-- Claim C9 (amended): `from_ini` registers the new node's own
`(name, id, level)` triple in the cache after construction (keyed by its
id); its lineage is the root-first reversal of the child-to-root parent
walk, which stops at the first path component failing the Identifier
Validator; and in a tree `root/abcd1234/lang5678/xyz19999` whose
ancestor directory names are valid codes (the claim's `abc1fam1`
corrected to `abcd1234`), `findByCode(root, "xyz19999")` returns a
Languoid whose ancestors list is `[abcd1234-node, lang5678-node]` in
that order. -/
theorem c9_amended :
    (∀ (fuel : Nat) (fs : FS) (d : List String) (cfg : Cfg) (nodes : Cache)
        (l : Languoid) (c2 : Cache) (lvl : Option String),
        from_ini fuel fs d cfg nodes = Except.ok (l, c2) →
        Languoid.levelRaw l = Except.ok lvl →
        cacheLookup c2 (Languoid.id l) =
          some (Languoid.name l, Languoid.id l, lvl)) ∧
    (∀ (fuel : Nat) (fs : FS) (d : List String) (cfg : Cfg) (nodes : Cache)
        (l : Languoid) (c2 : Cache) (raw : List RawEntry) (c1 : Cache),
        from_ini (fuel + 1) fs d cfg nodes = Except.ok (l, c2) →
        walkParents fuel fs (pathName d) d nodes = Except.ok (raw, c1) →
        convLineage raw.reverse = some l.lineage) ∧
    foundAncestors 12 fsC9good (find_languoid 12 fsC9good [] "xyz19999" []) =
      some [some { cfg := cfgFam, lineage := [], dir := ["root", "abcd1234"] },
            some { cfg := cfgLang,
                   lineage := [(some "Fam", "abcd1234", Level.family)],
                   dir := ["root", "abcd1234", "lang5678"] }] := by
  refine ⟨?_, ?_, rfl⟩
  · intro fuel fs d cfg nodes l c2 lvl h hlv
    cases fuel with
    | zero => exact Except.noConfusion h
    | succ f =>
      simp only [from_ini] at h
      split at h
      · exact Except.noConfusion h
      · split at h
        · exact Except.noConfusion h
        · split at h
          · exact Except.noConfusion h
          · next res hres lvl0 hl0 =>
            injection h with h2
            injection h2 with hr2 hc2
            subst hr2
            subst hc2
            rw [hl0] at hlv
            injection hlv with hlv
            subst hlv
            simp [cacheLookup, cacheInsert]
  · intro fuel fs d cfg nodes l c2 raw c1 h hw
    simp only [from_ini] at h
    split at h
    · exact Except.noConfusion h
    · next raw2 nodes1 hw2 =>
      rw [hw] at hw2
      injection hw2 with hw3
      injection hw3 with hraw hn
      subst hraw
      split at h
      · exact Except.noConfusion h
      · next res hres =>
        split at h
        · exact Except.noConfusion h
        · next lvl0 hl0 =>
          injection h with h2
          injection h2 with hr2 hc2
          subst hr2
          exact init_convLineage _ _ _ _ hres

/-- Witness for the amended C9: the general registration statement
applied at the concrete `xyz19999` node of the corrected tree. -/
theorem c9_amended_witness :
    cacheLookup
      [(some "xyz19999", (some "Xyz", some "xyz19999", some "dialect")),
       (some "lang5678", (some "Lang", some "lang5678", some "language")),
       (some "lang5678", (some "Lang", some "lang5678", some "language")),
       (some "abcd1234", (some "Fam", some "abcd1234", some "family")),
       (some "abcd1234", (some "Fam", some "abcd1234", some "family"))]
      (some "xyz19999") =
      some (some "Xyz", some "xyz19999", some "dialect") :=
  c9_amended.1 12 fsC9good ["root", "abcd1234", "lang5678", "xyz19999"]
    cfgXyz []
    { cfg := cfgXyz,
      lineage := [(some "Fam", "abcd1234", Level.family),
                  (some "Lang", "lang5678", Level.language)],
      dir := ["root", "abcd1234", "lang5678", "xyz19999"] }
    [(some "xyz19999", (some "Xyz", some "xyz19999", some "dialect")),
     (some "lang5678", (some "Lang", some "lang5678", some "language")),
     (some "lang5678", (some "Lang", some "lang5678", some "language")),
     (some "abcd1234", (some "Fam", some "abcd1234", some "family")),
     (some "abcd1234", (some "Fam", some "abcd1234", some "family"))]
    (some "dialect") rfl rfl

/-- Claim C10: when no parent component of a Languoid's directory
matches the Identifier Validator, `ancestors` is the empty list and
`parent` and `family` are the absent value, with no failure; and
whenever `ancestors` succeeds, `parent` is its last element and
`family` its first. -/
theorem c10_theorem :
    (∀ (fuel : Nat) (fs : FS) (l : Languoid) (c : Cache),
        (∀ q ∈ parentChain l.dir, idPatternMatch (pathName q) = false) →
        Languoid.ancestors (fuel + 1) fs l c = Except.ok ([], c) ∧
        Languoid.parent (fuel + 1) fs l c = Except.ok none ∧
        Languoid.family (fuel + 1) fs l c = Except.ok none) ∧
    (∀ (fuel : Nat) (fs : FS) (l : Languoid) (c : Cache)
        (as : List (Option Languoid)) (c2 : Cache) (p0 f0 : Option Languoid),
        Languoid.ancestors fuel fs l c = Except.ok (as, c2) →
        as.getLast? = some p0 → as.head? = some f0 →
        Languoid.parent fuel fs l c = Except.ok p0 ∧
        Languoid.family fuel fs l c = Except.ok f0) := by
  constructor
  · intro fuel fs l c h
    have haux : ancestorsAux (fuel + 1) fs l.dir c = Except.ok ([], c) := by
      cases hd : l.dir with
      | nil => simp [ancestorsAux]
      | cons x xs =>
        have hmem : (x :: xs).dropLast ∈ parentChain l.dir := by
          unfold parentChain
          rw [List.mem_reverse, List.mem_map]
          refine ⟨l.dir.length - 1, ?_, ?_⟩
          · rw [List.mem_range, hd]
            simp
          · rw [hd, List.dropLast_eq_take]
        have hfail := h _ hmem
        simp [ancestorsAux, hfail]
    have hanc : Languoid.ancestors (fuel + 1) fs l c = Except.ok ([], c) := by
      unfold Languoid.ancestors
      rw [haux]
      rfl
    refine ⟨hanc, ?_, ?_⟩
    · unfold Languoid.parent
      rw [hanc]
      rfl
    · unfold Languoid.family
      rw [hanc]
      rfl
  · intro fuel fs l c as c2 p0 f0 ha hlast hhead
    constructor
    · unfold Languoid.parent
      rw [ha]
      simp [Except.map, hlast]
    · unfold Languoid.family
      rw [ha]
      simp [Except.map, hhead]

/-- Witness for C10 at a concrete root-level isolate. -/
theorem c10_witness :
    Languoid.ancestors 1 (fun _ => none)
        { cfg := [], lineage := [], dir := ["x"] } [] = Except.ok ([], []) ∧
    Languoid.parent 1 (fun _ => none)
        { cfg := [], lineage := [], dir := ["x"] } [] = Except.ok none ∧
    Languoid.family 1 (fun _ => none)
        { cfg := [], lineage := [], dir := ["x"] } [] = Except.ok none :=
  c10_theorem.1 0 (fun _ => none) { cfg := [], lineage := [], dir := ["x"] }
    [] (by decide)

/-- Witness for the amended C7 at a concrete string. -/
theorem c7_amended_witness :
    idPatternMatch "NOCODE_Foo-1" =
      specIdForm (String.mk (stripFinalNewline ("NOCODE_Foo-1" : String).data)) :=
  c7_amended.1 "NOCODE_Foo-1"

/-- Witness for the amended C4 at a concrete one-call sequence. -/
theorem c4_amended_witness :
    from_ini_calls 3 fsC4 [(["t1", "abcd1234", "wxyz1111"], "wxyz1111.ini")] [] =
      [from_ini_fresh 3 fsC4 ["t1", "abcd1234", "wxyz1111"] "wxyz1111.ini"] :=
  c4_amended.1 3 fsC4 ["t1", "abcd1234", "wxyz1111"] "wxyz1111.ini"
